import Mathlib

/-!
Verification of the generalised-relayer repository specification against a
shallow embedding of its source.

The repository snapshot contains the submitter service configuration loader,
the polymer collector module, common utilities and the test helpers; the
Store merge logic and the Evaluator are referenced by the tests but their
source is not part of the snapshot, so those two components are modelled
from the specification text (sections 3, 4.2, 4.5 and 8 of the spec), as
indicated in the doc comments of the corresponding definitions.
-/

/-! ## Event keys and ordering -/

/-- Modelled from the spec: the `(blockNumber, logIndex)` pair that orders
observations of the same event slot (spec section 4.2); the Store source
(`store.lib`) is not part of the repository snapshot. -/
structure EventKey where
  blockNumber : ℕ
  logIndex : ℕ
  deriving DecidableEq, Repr

/-- Modelled from the spec: lexicographic strict order on
`(blockNumber, logIndex)` used by the merge rule of spec section 4.2. -/
def keyLT (a b : EventKey) : Prop :=
  a.blockNumber < b.blockNumber ∨
    (a.blockNumber = b.blockNumber ∧ a.logIndex < b.logIndex)

instance (a b : EventKey) : Decidable (keyLT a b) := by
  unfold keyLT
  exact inferInstance

theorem keyLT_trichotomy (a b : EventKey) : keyLT a b ∨ a = b ∨ keyLT b a := by
  cases a with
  | mk bn1 li1 =>
    cases b with
    | mk bn2 li2 =>
      simp only [keyLT, EventKey.mk.injEq]
      omega

theorem keyLT_asymm {a b : EventKey} (h : keyLT a b) : ¬ keyLT b a := by
  cases a with
  | mk bn1 li1 =>
    cases b with
    | mk bn2 li2 =>
      simp only [keyLT] at h ⊢
      omega

theorem keyLT_irrefl (a : EventKey) : ¬ keyLT a a := by
  cases a with
  | mk bn li =>
    simp only [keyLT]
    omega

/-! ## Bounty event payloads -/

/-- Modelled from the spec: payload of a `BountyPlaced` event
(spec section 3); the Store source is not part of the snapshot. -/
structure BountyPlacedData where
  messageIdentifier : String
  fromChainId : String
  incentivesAddress : String
  maxGasDelivery : ℚ
  maxGasAck : ℚ
  refundGasTo : String
  priceOfDeliveryGas : ℚ
  priceOfAckGas : ℚ
  targetDelta : ℤ
  transactionHash : String
  blockHash : String
  deriving DecidableEq, Repr

/-- Modelled from the spec: payload of a `BountyIncreased` event
(spec section 3). -/
structure BountyIncreasedData where
  messageIdentifier : String
  newDeliveryGasPrice : ℚ
  newAckGasPrice : ℚ
  transactionHash : String
  blockHash : String
  deriving DecidableEq, Repr

/-- Modelled from the spec: payload of a `MessageDelivered` event
(spec section 3). -/
structure MessageDeliveredData where
  messageIdentifier : String
  toChainId : String
  transactionHash : String
  blockHash : String
  deriving DecidableEq, Repr

/-- Modelled from the spec: payload of a `BountyClaimed` event
(spec section 3). -/
structure BountyClaimedData where
  messageIdentifier : String
  transactionHash : String
  blockHash : String
  deriving DecidableEq, Repr

/-- Modelled from the spec: the tagged union of bounty events
(spec section 3), each carrying its `(blockNumber, logIndex)` key. -/
inductive BountyEvent where
  | placed (k : EventKey) (p : BountyPlacedData)
  | increased (k : EventKey) (p : BountyIncreasedData)
  | delivered (k : EventKey) (p : MessageDeliveredData)
  | claimed (k : EventKey) (p : BountyClaimedData)
  deriving DecidableEq, Repr

/-- Modelled from the spec: `statusOf(Placed|Increased)=0`,
`statusOf(Delivered)=1`, `statusOf(Claimed)=2` (spec section 4.2). -/
def statusOf : BountyEvent → ℕ
  | .placed _ _ => 0
  | .increased _ _ => 0
  | .delivered _ _ => 1
  | .claimed _ _ => 2

/-- Modelled from the spec: the event key carried by an event. -/
def keyOf : BountyEvent → EventKey
  | .placed k _ => k
  | .increased k _ => k
  | .delivered k _ => k
  | .claimed k _ => k

/-- Modelled from the spec: which of the four event slots an event targets. -/
def slotIdx : BountyEvent → ℕ
  | .placed _ _ => 0
  | .increased _ _ => 1
  | .delivered _ _ => 2
  | .claimed _ _ => 3

/-! ## RelayState and the merge rule -/

/-- Modelled from the spec: the per-MID `RelayState` aggregate of spec
section 3 (latest seen variant per event kind, current status, gas costs
observed at delivery and ack, attempt counters); the Store source is not
part of the snapshot. -/
@[ext]
structure RelayState where
  status : ℕ
  bountyPlacedEvent : Option (EventKey × BountyPlacedData)
  bountyIncreasedEvent : Option (EventKey × BountyIncreasedData)
  messageDeliveredEvent : Option (EventKey × MessageDeliveredData)
  bountyClaimedEvent : Option (EventKey × BountyClaimedData)
  deliveryGasCost : Option ℚ
  ackGasCost : Option ℚ
  deliveryAttempts : ℕ
  ackAttempts : ℕ
  deriving DecidableEq, Repr

/-- Modelled from the spec: the `RelayState` before any event was merged. -/
def emptyRelayState : RelayState :=
  { status := 0
    bountyPlacedEvent := none
    bountyIncreasedEvent := none
    messageDeliveredEvent := none
    bountyClaimedEvent := none
    deliveryGasCost := none
    ackGasCost := none
    deliveryAttempts := 0
    ackAttempts := 0 }

/-- Modelled from the spec: the per-slot merge rule of spec section 4.2 -
a later observation with a strictly larger `(blockNumber, logIndex)` key
wins over the current slot content. -/
def updSlot {α : Type} (cur : Option (EventKey × α)) (e : EventKey × α) :
    Option (EventKey × α) :=
  match cur with
  | none => some e
  | some c => if keyLT c.1 e.1 then some e else some c

/-- Modelled from the spec: applying event `E` to `RelayState S` fills the
matching event slot using the `(blockNumber, logIndex)` rule and sets
`status = max(S.status, statusOf(E))` (spec section 4.2). -/
def applyEvent (s : RelayState) : BountyEvent → RelayState
  | .placed k p =>
      { s with
        bountyPlacedEvent := updSlot s.bountyPlacedEvent (k, p)
        status := max s.status 0 }
  | .increased k p =>
      { s with
        bountyIncreasedEvent := updSlot s.bountyIncreasedEvent (k, p)
        status := max s.status 0 }
  | .delivered k p =>
      { s with
        messageDeliveredEvent := updSlot s.messageDeliveredEvent (k, p)
        status := max s.status 1 }
  | .claimed k p =>
      { s with
        bountyClaimedEvent := updSlot s.bountyClaimedEvent (k, p)
        status := max s.status 2 }

/-- Modelled from the spec: merging a sequence of events into a state. -/
def applyEvents (s : RelayState) (l : List BountyEvent) : RelayState :=
  l.foldl applyEvent s

/-- Modelled from the spec: mutations of a persisted `RelayState` - an
event merge by the Collector, or a confirmation result recorded by the
Wallet (costs, attempt counters; spec sections 3 and 4.7). -/
inductive StoreUpdate where
  | event (e : BountyEvent)
  | deliveryConfirmed (gasCost : ℚ)
  | ackConfirmed (gasCost : ℚ)
  deriving DecidableEq

/-- Modelled from the spec: one Store mutation (spec section 3,
Lifecycle). -/
def applyStoreUpdate (s : RelayState) : StoreUpdate → RelayState
  | .event e => applyEvent s e
  | .deliveryConfirmed g =>
      { s with
        deliveryGasCost := some g
        deliveryAttempts := s.deliveryAttempts + 1 }
  | .ackConfirmed g =>
      { s with
        ackGasCost := some g
        ackAttempts := s.ackAttempts + 1 }

/-- Modelled from the spec: a sequence of Store mutations. -/
def applyStoreUpdates (s : RelayState) (l : List StoreUpdate) : RelayState :=
  l.foldl applyStoreUpdate s

/-- Modelled from the spec: the terminal state of a relay - status 2 with
the `BountyPlaced`, `MessageDelivered` and `BountyClaimed` slots populated
(spec sections 3 and 8, complete-process tests). -/
def terminalState (s : RelayState) : Prop :=
  s.status = 2 ∧
    s.bountyPlacedEvent.isSome = true ∧
    s.messageDeliveredEvent.isSome = true ∧
    s.bountyClaimedEvent.isSome = true

theorem applyEvent_status (s : RelayState) (e : BountyEvent) :
    (applyEvent s e).status = max s.status (statusOf e) := by
  cases e <;> rfl

theorem applyEvent_status_le (s : RelayState) (e : BountyEvent) :
    s.status ≤ (applyEvent s e).status := by
  rw [applyEvent_status]
  exact le_max_left _ _

theorem applyStoreUpdate_status_le (s : RelayState) (u : StoreUpdate) :
    s.status ≤ (applyStoreUpdate s u).status := by
  cases u with
  | event e => exact applyEvent_status_le s e
  | deliveryConfirmed g => exact le_rfl
  | ackConfirmed g => exact le_rfl

theorem updSlot_isSome {α : Type} (cur : Option (EventKey × α))
    (e : EventKey × α) (h : cur.isSome = true) :
    (updSlot cur e).isSome = true := by
  cases cur with
  | none => simp at h
  | some c =>
    simp only [updSlot]
    split <;> rfl

theorem applyStoreUpdate_preserves_terminal (s : RelayState) (u : StoreUpdate)
    (h : terminalState s) : terminalState (applyStoreUpdate s u) := by
  obtain ⟨h0, h1, h2, h3⟩ := h
  cases u with
  | event e =>
    cases e with
    | placed k p =>
      refine ⟨?_, ?_, h2, h3⟩
      · show max s.status 0 = 2
        rw [h0]
        decide
      · exact updSlot_isSome _ _ h1
    | increased k p =>
      refine ⟨?_, h1, h2, h3⟩
      show max s.status 0 = 2
      rw [h0]
      decide
    | delivered k p =>
      refine ⟨?_, h1, ?_, h3⟩
      · show max s.status 1 = 2
        rw [h0]
        decide
      · exact updSlot_isSome _ _ h2
    | claimed k p =>
      refine ⟨?_, h1, h2, ?_⟩
      · show max s.status 2 = 2
        rw [h0]
        decide
      · exact updSlot_isSome _ _ h3
  | deliveryConfirmed g => exact ⟨h0, h1, h2, h3⟩
  | ackConfirmed g => exact ⟨h0, h1, h2, h3⟩

theorem applyStoreUpdates_status_le (s : RelayState) (l : List StoreUpdate) :
    s.status ≤ (applyStoreUpdates s l).status := by
  induction l generalizing s with
  | nil => exact le_rfl
  | cons u t ih =>
    exact le_trans (applyStoreUpdate_status_le s u) (ih (applyStoreUpdate s u))

theorem applyStoreUpdates_preserves_terminal (s : RelayState)
    (l : List StoreUpdate) (h : terminalState s) :
    terminalState (applyStoreUpdates s l) := by
  induction l generalizing s with
  | nil => exact h
  | cons u t ih =>
    exact ih (applyStoreUpdate s u) (applyStoreUpdate_preserves_terminal s u h)

/-- C1: for every persisted `RelayState`, the status field is monotonically
non-decreasing under any sequence of collector events or wallet confirmation
updates, and a state that reached status 2 with all three event slots
populated stays in that terminal state. -/
theorem relayState_status_monotone (s : RelayState) (l : List StoreUpdate) :
    s.status ≤ (applyStoreUpdates s l).status ∧
      (terminalState s → terminalState (applyStoreUpdates s l)) :=
  ⟨applyStoreUpdates_status_le s l, applyStoreUpdates_preserves_terminal s l⟩

/-! ## Commutativity of the merge -/

theorem keyLT_trans {a b c : EventKey} (h1 : keyLT a b) (h2 : keyLT b c) :
    keyLT a c := by
  cases a
  cases b
  cases c
  simp only [keyLT] at h1 h2 ⊢
  omega

theorem updSlot_none {α : Type} (e : EventKey × α) :
    updSlot (none : Option (EventKey × α)) e = some e := rfl

theorem updSlot_some {α : Type} (c e : EventKey × α) :
    updSlot (some c) e = if keyLT c.1 e.1 then some e else some c := rfl

theorem updSlot_updSlot {α : Type} (c : Option (EventKey × α))
    (x y : EventKey × α) (h : x.1 = y.1 → x = y) :
    updSlot (updSlot c x) y = updSlot (updSlot c y) x := by
  rcases keyLT_trichotomy x.1 y.1 with hxy | hxy | hxy
  · cases c with
    | none =>
      rw [updSlot_none, updSlot_none, updSlot_some, updSlot_some,
        if_pos hxy, if_neg (keyLT_asymm hxy)]
    | some c0 =>
      rw [updSlot_some, updSlot_some]
      by_cases hcx : keyLT c0.1 x.1
      · have hcy : keyLT c0.1 y.1 := keyLT_trans hcx hxy
        rw [if_pos hcx, if_pos hcy, updSlot_some, updSlot_some,
          if_pos hxy, if_neg (keyLT_asymm hxy)]
      · rw [if_neg hcx]
        by_cases hcy : keyLT c0.1 y.1
        · rw [if_pos hcy, updSlot_some, updSlot_some, if_pos hcy,
            if_neg (keyLT_asymm hxy)]
        · rw [if_neg hcy, updSlot_some, updSlot_some, if_neg hcy, if_neg hcx]
  · cases h hxy
    rfl
  · cases c with
    | none =>
      rw [updSlot_none, updSlot_none, updSlot_some, updSlot_some,
        if_neg (keyLT_asymm hxy), if_pos hxy]
    | some c0 =>
      rw [updSlot_some, updSlot_some]
      by_cases hcy : keyLT c0.1 y.1
      · have hcx : keyLT c0.1 x.1 := keyLT_trans hcy hxy
        rw [if_pos hcx, if_pos hcy, updSlot_some, updSlot_some,
          if_neg (keyLT_asymm hxy), if_pos hxy]
      · rw [if_neg hcy]
        by_cases hcx : keyLT c0.1 x.1
        · rw [if_pos hcx, updSlot_some, updSlot_some,
            if_neg (keyLT_asymm hxy), if_pos hcx]
        · rw [if_neg hcx, updSlot_some, updSlot_some, if_neg hcx, if_neg hcy]

theorem applyEvent_comm (s : RelayState) (a b : BountyEvent)
    (h : slotIdx a = slotIdx b → keyOf a = keyOf b → a = b) :
    applyEvent (applyEvent s a) b = applyEvent (applyEvent s b) a := by
  cases a <;> cases b <;>
    apply RelayState.ext <;>
    first
      | rfl
      | (simp only [applyEvent_status, statusOf]; omega)
      | exact updSlot_updSlot _ _ _ fun hk => by cases h rfl hk; rfl

theorem applyEvents_cons (s : RelayState) (e : BountyEvent)
    (t : List BountyEvent) :
    applyEvents s (e :: t) = applyEvents (applyEvent s e) t := rfl

theorem applyEvents_perm {l1 l2 : List BountyEvent} (hp : l1.Perm l2) :
    (∀ a ∈ l1, ∀ b ∈ l1, slotIdx a = slotIdx b → keyOf a = keyOf b → a = b) →
    ∀ s, applyEvents s l1 = applyEvents s l2 := by
  induction hp with
  | nil =>
    intro _ s
    rfl
  | cons x p ih =>
    intro hcoh s
    rw [applyEvents_cons, applyEvents_cons]
    exact ih
      (fun a ha b hb =>
        hcoh a (List.mem_cons_of_mem x ha) b (List.mem_cons_of_mem x hb))
      (applyEvent s x)
  | swap x y l =>
    intro hcoh s
    rw [applyEvents_cons, applyEvents_cons, applyEvents_cons, applyEvents_cons]
    have hxy : slotIdx y = slotIdx x → keyOf y = keyOf x → y = x :=
      hcoh y (List.mem_cons_self y _) x
        (List.mem_cons_of_mem y (List.mem_cons_self x _))
    rw [applyEvent_comm s y x hxy]
  | trans p1 p2 ih1 ih2 =>
    intro hcoh s
    have h2 := fun a ha b hb =>
      hcoh a (p1.mem_iff.mpr ha) b (p1.mem_iff.mpr hb)
    exact (ih1 hcoh s).trans (ih2 h2 s)

theorem applyEvents_status (s : RelayState) (l : List BountyEvent) :
    (applyEvents s l).status =
      l.foldl (fun m e => max m (statusOf e)) s.status := by
  induction l generalizing s with
  | nil => rfl
  | cons e t ih =>
    show (applyEvents (applyEvent s e) t).status =
      t.foldl (fun m e => max m (statusOf e)) (max s.status (statusOf e))
    rw [ih, applyEvent_status]

/-! ## Slot contents as folds over per-slot entries -/

/-- Modelled from the spec: the `BountyPlaced` slot entry of an event. -/
def placedEntry : BountyEvent → Option (EventKey × BountyPlacedData)
  | .placed k p => some (k, p)
  | _ => none

/-- Modelled from the spec: the `BountyIncreased` slot entry of an event. -/
def increasedEntry : BountyEvent → Option (EventKey × BountyIncreasedData)
  | .increased k p => some (k, p)
  | _ => none

/-- Modelled from the spec: the `MessageDelivered` slot entry of an event. -/
def deliveredEntry : BountyEvent → Option (EventKey × MessageDeliveredData)
  | .delivered k p => some (k, p)
  | _ => none

/-- Modelled from the spec: the `BountyClaimed` slot entry of an event. -/
def claimedEntry : BountyEvent → Option (EventKey × BountyClaimedData)
  | .claimed k p => some (k, p)
  | _ => none

theorem applyEvents_placed_slot (s : RelayState) (l : List BountyEvent) :
    (applyEvents s l).bountyPlacedEvent =
      (l.filterMap placedEntry).foldl updSlot s.bountyPlacedEvent := by
  induction l generalizing s with
  | nil => rfl
  | cons e t ih => cases e <;> exact ih _

theorem applyEvents_increased_slot (s : RelayState) (l : List BountyEvent) :
    (applyEvents s l).bountyIncreasedEvent =
      (l.filterMap increasedEntry).foldl updSlot s.bountyIncreasedEvent := by
  induction l generalizing s with
  | nil => rfl
  | cons e t ih => cases e <;> exact ih _

theorem applyEvents_delivered_slot (s : RelayState) (l : List BountyEvent) :
    (applyEvents s l).messageDeliveredEvent =
      (l.filterMap deliveredEntry).foldl updSlot s.messageDeliveredEvent := by
  induction l generalizing s with
  | nil => rfl
  | cons e t ih => cases e <;> exact ih _

theorem applyEvents_claimed_slot (s : RelayState) (l : List BountyEvent) :
    (applyEvents s l).bountyClaimedEvent =
      (l.filterMap claimedEntry).foldl updSlot s.bountyClaimedEvent := by
  induction l generalizing s with
  | nil => rfl
  | cons e t ih => cases e <;> exact ih _

theorem foldl_updSlot_stay {α : Type} (x : EventKey × α)
    (entries : List (EventKey × α))
    (h : ∀ y ∈ entries, keyLT y.1 x.1 ∨ y = x) :
    entries.foldl updSlot (some x) = some x := by
  induction entries with
  | nil => rfl
  | cons y t ih =>
    have hy := h y (List.mem_cons_self y t)
    have hstep : updSlot (some x) y = some x := by
      cases hy with
      | inl hlt => rw [updSlot_some, if_neg (keyLT_asymm hlt)]
      | inr heq =>
        cases heq
        rw [updSlot_some, if_neg (keyLT_irrefl _)]
    rw [List.foldl_cons, hstep]
    exact ih fun z hz => h z (List.mem_cons_of_mem y hz)

theorem foldl_updSlot_max {α : Type} (x : EventKey × α) :
    ∀ (entries : List (EventKey × α)) (c : Option (EventKey × α)),
      x ∈ entries → (∀ y ∈ entries, y ≠ x → keyLT y.1 x.1) →
      (c = none ∨ ∃ y, c = some y ∧ (keyLT y.1 x.1 ∨ y = x)) →
      entries.foldl updSlot c = some x := by
  intro entries
  induction entries with
  | nil =>
    intro c hx _ _
    exact absurd hx (List.not_mem_nil x)
  | cons y t ih =>
    intro c hx hmax hc
    rw [List.foldl_cons]
    by_cases hyx : y = x
    · cases hyx
      have hcy : updSlot c x = some x := by
        rcases hc with hc | ⟨z, hz, hzx⟩
        · rw [hc, updSlot_none]
        · rw [hz, updSlot_some]
          rcases hzx with hlt | heq
          · rw [if_pos hlt]
          · cases heq
            rw [if_neg (keyLT_irrefl _)]
      rw [hcy]
      apply foldl_updSlot_stay x t
      intro z hz
      by_cases hzy : z = x
      · exact Or.inr hzy
      · exact Or.inl (hmax z (List.mem_cons_of_mem x hz) hzy)
    · have hxt : x ∈ t := by
        rcases List.mem_cons.mp hx with hxy | hxt
        · exact absurd hxy.symm hyx
        · exact hxt
      have hylt : keyLT y.1 x.1 := hmax y (List.mem_cons_self y t) hyx
      apply ih (updSlot c y) hxt
        (fun z hz hne => hmax z (List.mem_cons_of_mem y hz) hne)
      right
      rcases hc with hc | ⟨z, hz, hzx⟩
      · exact ⟨y, by rw [hc, updSlot_none], Or.inl hylt⟩
      · rw [hz, updSlot_some]
        by_cases hzy : keyLT z.1 y.1
        · exact ⟨y, by rw [if_pos hzy], Or.inl hylt⟩
        · exact ⟨z, by rw [if_neg hzy], hzx⟩

theorem placedEntry_key {e : BountyEvent} {pe : EventKey × BountyPlacedData}
    (h : placedEntry e = some pe) : keyOf e = pe.1 := by
  cases e with
  | placed k p => cases h; rfl
  | increased k p => exact Option.noConfusion h
  | delivered k p => exact Option.noConfusion h
  | claimed k p => exact Option.noConfusion h

theorem placedEntry_slotIdx {e : BountyEvent} {pe : EventKey × BountyPlacedData}
    (h : placedEntry e = some pe) : slotIdx e = 0 := by
  cases e with
  | placed k p => rfl
  | increased k p => exact Option.noConfusion h
  | delivered k p => exact Option.noConfusion h
  | claimed k p => exact Option.noConfusion h

theorem increasedEntry_key {e : BountyEvent}
    {pe : EventKey × BountyIncreasedData}
    (h : increasedEntry e = some pe) : keyOf e = pe.1 := by
  cases e with
  | increased k p => cases h; rfl
  | placed k p => exact Option.noConfusion h
  | delivered k p => exact Option.noConfusion h
  | claimed k p => exact Option.noConfusion h

theorem increasedEntry_slotIdx {e : BountyEvent}
    {pe : EventKey × BountyIncreasedData}
    (h : increasedEntry e = some pe) : slotIdx e = 1 := by
  cases e with
  | increased k p => rfl
  | placed k p => exact Option.noConfusion h
  | delivered k p => exact Option.noConfusion h
  | claimed k p => exact Option.noConfusion h

theorem deliveredEntry_key {e : BountyEvent}
    {pe : EventKey × MessageDeliveredData}
    (h : deliveredEntry e = some pe) : keyOf e = pe.1 := by
  cases e with
  | delivered k p => cases h; rfl
  | placed k p => exact Option.noConfusion h
  | increased k p => exact Option.noConfusion h
  | claimed k p => exact Option.noConfusion h

theorem deliveredEntry_slotIdx {e : BountyEvent}
    {pe : EventKey × MessageDeliveredData}
    (h : deliveredEntry e = some pe) : slotIdx e = 2 := by
  cases e with
  | delivered k p => rfl
  | placed k p => exact Option.noConfusion h
  | increased k p => exact Option.noConfusion h
  | claimed k p => exact Option.noConfusion h

theorem claimedEntry_key {e : BountyEvent} {pe : EventKey × BountyClaimedData}
    (h : claimedEntry e = some pe) : keyOf e = pe.1 := by
  cases e with
  | claimed k p => cases h; rfl
  | placed k p => exact Option.noConfusion h
  | increased k p => exact Option.noConfusion h
  | delivered k p => exact Option.noConfusion h

theorem claimedEntry_slotIdx {e : BountyEvent}
    {pe : EventKey × BountyClaimedData}
    (h : claimedEntry e = some pe) : slotIdx e = 3 := by
  cases e with
  | claimed k p => rfl
  | placed k p => exact Option.noConfusion h
  | increased k p => exact Option.noConfusion h
  | delivered k p => exact Option.noConfusion h

/-! ## C2: permutation invariance of the merge -/

/-- C2 (amended): merging a sequence of bounty events in any permutation
yields the same final `RelayState`, provided no two distinct events for the
same slot carry the same `(blockNumber, logIndex)` key (distinct on-chain
logs always have distinct keys); each event slot ends up holding the entry
of the event with the strictly largest key for that slot, and the final
status is the maximum `statusOf` over all applied events. -/
theorem store_merge_perm (l1 l2 : List BountyEvent) (hp : l1.Perm l2)
    (hcoh : ∀ a ∈ l1, ∀ b ∈ l1,
      slotIdx a = slotIdx b → keyOf a = keyOf b → a = b) :
    (∀ s, applyEvents s l1 = applyEvents s l2) ∧
      (applyEvents emptyRelayState l1).status =
        l1.foldl (fun m e => max m (statusOf e)) 0 ∧
      (∀ e ∈ l1, ∀ pe, placedEntry e = some pe →
        (∀ b ∈ l1, slotIdx b = 0 → b ≠ e → keyLT (keyOf b) (keyOf e)) →
        (applyEvents emptyRelayState l1).bountyPlacedEvent = some pe) ∧
      (∀ e ∈ l1, ∀ pe, increasedEntry e = some pe →
        (∀ b ∈ l1, slotIdx b = 1 → b ≠ e → keyLT (keyOf b) (keyOf e)) →
        (applyEvents emptyRelayState l1).bountyIncreasedEvent = some pe) ∧
      (∀ e ∈ l1, ∀ pe, deliveredEntry e = some pe →
        (∀ b ∈ l1, slotIdx b = 2 → b ≠ e → keyLT (keyOf b) (keyOf e)) →
        (applyEvents emptyRelayState l1).messageDeliveredEvent = some pe) ∧
      (∀ e ∈ l1, ∀ pe, claimedEntry e = some pe →
        (∀ b ∈ l1, slotIdx b = 3 → b ≠ e → keyLT (keyOf b) (keyOf e)) →
        (applyEvents emptyRelayState l1).bountyClaimedEvent = some pe) := by
  refine ⟨applyEvents_perm hp hcoh, applyEvents_status emptyRelayState l1,
    ?_, ?_, ?_, ?_⟩
  · intro e he pe hpe hmax2
    rw [applyEvents_placed_slot]
    refine foldl_updSlot_max pe _ _
      (List.mem_filterMap.mpr ⟨e, he, hpe⟩) ?_ (Or.inl rfl)
    intro y hy hne
    obtain ⟨e2, he2, hye⟩ := List.mem_filterMap.mp hy
    by_cases heq : e2 = e
    · cases heq
      rw [hpe] at hye
      cases hye
      exact absurd rfl hne
    · have hk := hmax2 e2 he2 (placedEntry_slotIdx hye) heq
      rwa [placedEntry_key hye, placedEntry_key hpe] at hk
  · intro e he pe hpe hmax2
    rw [applyEvents_increased_slot]
    refine foldl_updSlot_max pe _ _
      (List.mem_filterMap.mpr ⟨e, he, hpe⟩) ?_ (Or.inl rfl)
    intro y hy hne
    obtain ⟨e2, he2, hye⟩ := List.mem_filterMap.mp hy
    by_cases heq : e2 = e
    · cases heq
      rw [hpe] at hye
      cases hye
      exact absurd rfl hne
    · have hk := hmax2 e2 he2 (increasedEntry_slotIdx hye) heq
      rwa [increasedEntry_key hye, increasedEntry_key hpe] at hk
  · intro e he pe hpe hmax2
    rw [applyEvents_delivered_slot]
    refine foldl_updSlot_max pe _ _
      (List.mem_filterMap.mpr ⟨e, he, hpe⟩) ?_ (Or.inl rfl)
    intro y hy hne
    obtain ⟨e2, he2, hye⟩ := List.mem_filterMap.mp hy
    by_cases heq : e2 = e
    · cases heq
      rw [hpe] at hye
      cases hye
      exact absurd rfl hne
    · have hk := hmax2 e2 he2 (deliveredEntry_slotIdx hye) heq
      rwa [deliveredEntry_key hye, deliveredEntry_key hpe] at hk
  · intro e he pe hpe hmax2
    rw [applyEvents_claimed_slot]
    refine foldl_updSlot_max pe _ _
      (List.mem_filterMap.mpr ⟨e, he, hpe⟩) ?_ (Or.inl rfl)
    intro y hy hne
    obtain ⟨e2, he2, hye⟩ := List.mem_filterMap.mp hy
    by_cases heq : e2 = e
    · cases heq
      rw [hpe] at hye
      cases hye
      exact absurd rfl hne
    · have hk := hmax2 e2 he2 (claimedEntry_slotIdx hye) heq
      rwa [claimedEntry_key hye, claimedEntry_key hpe] at hk

def exKeyA : EventKey := ⟨5, 0⟩

def exKeyB : EventKey := ⟨6, 1⟩

def exPlacedData : BountyPlacedData :=
  { messageIdentifier := "0xm1"
    fromChainId := "1"
    incentivesAddress := "0xinc"
    maxGasDelivery := 2000000
    maxGasAck := 2000000
    refundGasTo := "0xref"
    priceOfDeliveryGas := 50
    priceOfAckGas := 50
    targetDelta := 0
    transactionHash := "0xt1"
    blockHash := "0xb1" }

def exDeliveredData : MessageDeliveredData :=
  { messageIdentifier := "0xm1"
    toChainId := "2"
    transactionHash := "0xt2"
    blockHash := "0xb2" }

def exEventsA : List BountyEvent :=
  [BountyEvent.placed exKeyA exPlacedData,
    BountyEvent.delivered exKeyB exDeliveredData]

def exEventsB : List BountyEvent :=
  [BountyEvent.delivered exKeyB exDeliveredData,
    BountyEvent.placed exKeyA exPlacedData]

/-- Witness for C2 at a concrete two-event sequence and its transposition. -/
theorem store_merge_perm_witness :
    applyEvents emptyRelayState exEventsA =
      applyEvents emptyRelayState exEventsB :=
  (store_merge_perm exEventsA exEventsB
    (List.Perm.swap (BountyEvent.delivered exKeyB exDeliveredData)
      (BountyEvent.placed exKeyA exPlacedData) [])
    (by decide)).1 emptyRelayState

def cexPlacedData2 : BountyPlacedData :=
  { exPlacedData with messageIdentifier := "0xm2" }

def cexEventsA : List BountyEvent :=
  [BountyEvent.placed exKeyA exPlacedData,
    BountyEvent.placed exKeyA cexPlacedData2]

def cexEventsB : List BountyEvent :=
  [BountyEvent.placed exKeyA cexPlacedData2,
    BountyEvent.placed exKeyA exPlacedData]

/-- Counterexample to C2 as literally stated: two distinct `BountyPlaced`
events that share the `(blockNumber, logIndex)` key merge to different
final states under the two orders, because on a key tie the earlier
observation is kept. -/
theorem store_merge_perm_cex :
    cexEventsA.Perm cexEventsB ∧
      applyEvents emptyRelayState cexEventsA ≠
        applyEvents emptyRelayState cexEventsB :=
  ⟨List.Perm.swap _ _ [], by decide⟩

def exClaimedData : BountyClaimedData :=
  { messageIdentifier := "0xm1"
    transactionHash := "0xt3"
    blockHash := "0xb3" }

def exTerminalState : RelayState :=
  { status := 2
    bountyPlacedEvent := some (exKeyA, exPlacedData)
    bountyIncreasedEvent := none
    messageDeliveredEvent := some (exKeyB, exDeliveredData)
    bountyClaimedEvent := some (⟨7, 0⟩, exClaimedData)
    deliveryGasCost := none
    ackGasCost := none
    deliveryAttempts := 0
    ackAttempts := 0 }

def exUpdates : List StoreUpdate :=
  [StoreUpdate.deliveryConfirmed 100,
    StoreUpdate.event (BountyEvent.claimed ⟨8, 0⟩ exClaimedData),
    StoreUpdate.ackConfirmed 7]

/-- Witness for C1 at a concrete terminal state and update sequence. -/
theorem relayState_status_monotone_witness :
    terminalState (applyStoreUpdates exTerminalState exUpdates) :=
  (relayState_status_monotone exTerminalState exUpdates).2 ⟨rfl, rfl, rfl, rfl⟩

/-! ## C3: the Evaluator profitability rule -/

/-- Modelled from the spec: the per-decision evaluator parameters of spec
section 4.5 (`gasEst`, the local gas price, `minReward` and
`relativeMinReward`); the Evaluator source is not part of the repository
snapshot. -/
structure EvalParams where
  gasEstimate : ℚ
  localGasPrice : ℚ
  minReward : ℚ
  relativeMinReward : ℚ
  deriving DecidableEq, Repr

/-- Modelled from the spec: a delivery submit order handed to the
Submitter (spec section 4.5). -/
structure SubmitOrder where
  messageIdentifier : String
  deriving DecidableEq, Repr

/-- Modelled from the spec: the delivery gas price used by the Evaluator
is `max(original, latest BountyIncreased)` (spec section 3, Invariants). -/
def effectiveDeliveryGasPrice (s : RelayState) : ℚ :=
  match s.bountyPlacedEvent, s.bountyIncreasedEvent with
  | some (_, p), some (_, i) => max p.priceOfDeliveryGas i.newDeliveryGasPrice
  | some (_, p), none => p.priceOfDeliveryGas
  | none, _ => 0

/-- Modelled from the spec: `valueIn = priceOfDeliveryGas ×
min(gasEst, maxGasDelivery)` (spec section 4.5). -/
def deliveryValueIn (pr : EvalParams) (s : RelayState) : ℚ :=
  match s.bountyPlacedEvent with
  | some (_, p) =>
      effectiveDeliveryGasPrice s * min pr.gasEstimate p.maxGasDelivery
  | none => 0

/-- Modelled from the spec: `costOut = gasEst × localGasPrice`
(spec section 4.5). -/
def deliveryCostOut (pr : EvalParams) : ℚ :=
  pr.gasEstimate * pr.localGasPrice

/-- Modelled from the spec: the Evaluator emits a `DeliveryOrder` for a
status-0 state whose `MessageDelivered` slot is absent iff
`valueIn ≥ costOut × (1 + relativeMinReward) + minReward`
(spec section 4.5); the Evaluator source is not part of the snapshot. -/
def evalDelivery (pr : EvalParams) (s : RelayState) : Option SubmitOrder :=
  if s.status = 0 ∧ s.messageDeliveredEvent = none then
    match s.bountyPlacedEvent with
    | some (_, p) =>
        if deliveryCostOut pr * (1 + pr.relativeMinReward) + pr.minReward ≤
            deliveryValueIn pr s
        then some { messageIdentifier := p.messageIdentifier }
        else none
    | none => none
  else none

/-- Modelled from the spec: one relayer round for a pending state - when
the Evaluator emits a delivery order the delivery happens and the
corresponding `MessageDelivered` event is merged back, otherwise the state
is left unchanged (spec sections 2 and 4.5). -/
def relayStep (pr : EvalParams) (k : EventKey) (d : MessageDeliveredData)
    (s : RelayState) : RelayState :=
  match evalDelivery pr s with
  | some _ => applyEvent s (BountyEvent.delivered k d)
  | none => s

/-- C3 (amended): for a pending `RelayState` (status 0, no
`MessageDelivered`, a persisted `BountyPlaced`), the Evaluator emits a
delivery order iff `valueIn ≥ costOut × (1 + relativeMinReward) +
minReward`; and when the bounty has `priceOfDeliveryGas = 0` with no
`BountyIncreased`, provided the decision threshold
`costOut × (1 + relativeMinReward) + minReward` is positive, no delivery
order is ever emitted and the state stays unchanged at status 0 under any
number of relayer rounds. -/
theorem evaluator_profitability (pr : EvalParams) (s : RelayState)
    (k0 : EventKey) (p : BountyPlacedData)
    (hpend : s.status = 0 ∧ s.messageDeliveredEvent = none)
    (hplaced : s.bountyPlacedEvent = some (k0, p)) :
    ((evalDelivery pr s).isSome = true ↔
      deliveryCostOut pr * (1 + pr.relativeMinReward) + pr.minReward ≤
        deliveryValueIn pr s) ∧
      (p.priceOfDeliveryGas = 0 → s.bountyIncreasedEvent = none →
        0 < deliveryCostOut pr * (1 + pr.relativeMinReward) + pr.minReward →
        ∀ (n : ℕ) (k : EventKey) (d : MessageDeliveredData),
          (relayStep pr k d)^[n] s = s ∧
            ((relayStep pr k d)^[n] s).status = 0) := by
  have hval : evalDelivery pr s =
      if deliveryCostOut pr * (1 + pr.relativeMinReward) + pr.minReward ≤
          deliveryValueIn pr s
      then some { messageIdentifier := p.messageIdentifier }
      else none := by
    unfold evalDelivery
    rw [if_pos hpend, hplaced]
  constructor
  · rw [hval]
    by_cases hle : deliveryCostOut pr * (1 + pr.relativeMinReward) +
        pr.minReward ≤ deliveryValueIn pr s
    · rw [if_pos hle]
      exact iff_of_true rfl hle
    · rw [if_neg hle]
      exact iff_of_false (by simp) hle
  · intro hzero hnoincr hpos
    have hvz : deliveryValueIn pr s = 0 := by
      simp [deliveryValueIn, effectiveDeliveryGasPrice, hplaced, hnoincr,
        hzero]
    have hnone : evalDelivery pr s = none := by
      rw [hval, if_neg]
      rw [hvz]
      exact not_le.mpr hpos
    intro n k d
    have hfix : relayStep pr k d s = s := by
      unfold relayStep
      rw [hnone]
    have hit := Function.iterate_fixed hfix n
    exact ⟨hit, by rw [hit, hpend.1]⟩

def exEvalParams : EvalParams :=
  { gasEstimate := 100
    localGasPrice := 2
    minReward := 1
    relativeMinReward := 0 }

def cexZeroPlacedData : BountyPlacedData :=
  { exPlacedData with priceOfDeliveryGas := 0, priceOfAckGas := 0 }

def cexZeroPriceState : RelayState :=
  { status := 0
    bountyPlacedEvent := some (exKeyA, cexZeroPlacedData)
    bountyIncreasedEvent := none
    messageDeliveredEvent := none
    bountyClaimedEvent := none
    deliveryGasCost := none
    ackGasCost := none
    deliveryAttempts := 0
    ackAttempts := 0 }

/-- Witness for C3: with a positive decision threshold, the zero-price
bounty is never delivered and stays at status 0 after three rounds. -/
theorem evaluator_profitability_witness :
    (relayStep exEvalParams exKeyB exDeliveredData)^[3] cexZeroPriceState =
        cexZeroPriceState ∧
      ((relayStep exEvalParams exKeyB exDeliveredData)^[3]
        cexZeroPriceState).status = 0 :=
  (evaluator_profitability exEvalParams cexZeroPriceState exKeyA
    cexZeroPlacedData ⟨rfl, rfl⟩ rfl).2 rfl rfl
    (by norm_num [deliveryCostOut, exEvalParams]) 3 exKeyB
    exDeliveredData

def cexEvalParams : EvalParams :=
  { gasEstimate := 1
    localGasPrice := 0
    minReward := 0
    relativeMinReward := 0 }

/-- Counterexample to C3 as literally stated: when the local gas price and
both reward knobs are zero, the decision inequality `0 ≥ 0` holds, so a
delivery order is emitted even for a bounty placed with
`priceOfDeliveryGas = 0`. -/
theorem evaluator_zero_price_cex :
    (evalDelivery cexEvalParams cexZeroPriceState).isSome = true ∧
      cexZeroPriceState.bountyPlacedEvent.map
        (fun e => e.2.priceOfDeliveryGas) = some 0 := by
  constructor
  · norm_num [evalDelivery, deliveryCostOut, deliveryValueIn,
      effectiveDeliveryGasPrice, cexEvalParams, cexZeroPriceState,
      cexZeroPlacedData, exPlacedData]
  · rfl

/-! ## C4 and C5: submitter service configuration (submitter.service.ts) -/

/-- The `Record<string, number>` gas-limit-buffer configuration of
`submitter.service.ts`, embedded by its lookup semantics. -/
abbrev GasMap := String → Option ℚ

/-- The empty `Record<string, number>`. -/
def emptyGasMap : GasMap := fun _ => none

/-- The optional fields of the global submitter configuration read by
`SubmitterService.loadGlobalSubmitterConfig`. -/
structure SubmitterConfigIn where
  enabled : Option Bool
  newOrdersDelay : Option ℕ
  retryInterval : Option ℕ
  processingInterval : Option ℕ
  maxTries : Option ℕ
  maxPendingTransactions : Option ℕ
  confirmations : Option ℕ
  confirmationTimeout : Option ℕ
  lowBalanceWarning : Option ℕ
  balanceUpdateInterval : Option ℕ
  gasLimitBuffer : Option GasMap

/-- The `GlobalSubmitterConfig` interface of `submitter.service.ts`. -/
structure GlobalSubmitterConfig where
  enabled : Bool
  newOrdersDelay : ℕ
  retryInterval : ℕ
  processingInterval : ℕ
  maxTries : ℕ
  maxPendingTransactions : ℕ
  confirmations : ℕ
  confirmationTimeout : ℕ
  lowBalanceWarning : Option ℕ
  balanceUpdateInterval : ℕ
  gasLimitBuffer : GasMap

/-- `RETRY_INTERVAL_DEFAULT` of `submitter.service.ts`. -/
def RETRY_INTERVAL_DEFAULT : ℕ := 2000

/-- `PROCESSING_INTERVAL_DEFAULT` of `submitter.service.ts`. -/
def PROCESSING_INTERVAL_DEFAULT : ℕ := 100

/-- `MAX_TRIES_DEFAULT` of `submitter.service.ts`. -/
def MAX_TRIES_DEFAULT : ℕ := 3

/-- `MAX_PENDING_TRANSACTIONS` of `submitter.service.ts`. -/
def MAX_PENDING_TRANSACTIONS : ℕ := 1000

/-- `NEW_ORDERS_DELAY_DEFAULT` of `submitter.service.ts`. -/
def NEW_ORDERS_DELAY_DEFAULT : ℕ := 0

/-- `CONFIRMATIONS_DEFAULT` of `submitter.service.ts`. -/
def CONFIRMATIONS_DEFAULT : ℕ := 1

/-- `CONFIRMATION_TIMEOUT_DEFAULT` of `submitter.service.ts`
(`10 * 60000`). -/
def CONFIRMATION_TIMEOUT_DEFAULT : ℕ := 10 * 60000

/-- `BALANCE_UPDATE_INTERVAL_DEFAULT` of `submitter.service.ts`. -/
def BALANCE_UPDATE_INTERVAL_DEFAULT : ℕ := 50

/-- `SubmitterService.loadGlobalSubmitterConfig`: each absent optional key
falls back to its default constant, and the gas limit buffer gains a
`default` key equal to 0 when one is not present. -/
def loadGlobalSubmitterConfig (c : SubmitterConfigIn) :
    GlobalSubmitterConfig :=
  let gasLimitBuffer0 := c.gasLimitBuffer.getD emptyGasMap
  { enabled := c.enabled.getD true
    newOrdersDelay := c.newOrdersDelay.getD NEW_ORDERS_DELAY_DEFAULT
    retryInterval := c.retryInterval.getD RETRY_INTERVAL_DEFAULT
    processingInterval :=
      c.processingInterval.getD PROCESSING_INTERVAL_DEFAULT
    maxTries := c.maxTries.getD MAX_TRIES_DEFAULT
    maxPendingTransactions :=
      c.maxPendingTransactions.getD MAX_PENDING_TRANSACTIONS
    confirmations := c.confirmations.getD CONFIRMATIONS_DEFAULT
    confirmationTimeout :=
      c.confirmationTimeout.getD CONFIRMATION_TIMEOUT_DEFAULT
    lowBalanceWarning := c.lowBalanceWarning
    balanceUpdateInterval :=
      c.balanceUpdateInterval.getD BALANCE_UPDATE_INTERVAL_DEFAULT
    gasLimitBuffer :=
      if (gasLimitBuffer0 "default").isSome then gasLimitBuffer0
      else fun k => if k = "default" then some 0 else gasLimitBuffer0 k }

/-- `SubmitterService.getChainGasLimitBufferConfig`: the chain override is
written over the global defaults, so the chain value wins on every key
present in both and the global value is retained elsewhere. -/
def getChainGasLimitBufferConfig (dflt chain : GasMap) : GasMap :=
  fun k =>
    match chain k with
    | some v => some v
    | none => dflt k

/-- The gas limit buffer handed to a submitter worker by
`SubmitterService.loadWorkerData`. -/
def loadWorkerGasLimitBuffer (c : SubmitterConfigIn)
    (chainBuf : Option GasMap) : GasMap :=
  getChainGasLimitBufferConfig (loadGlobalSubmitterConfig c).gasLimitBuffer
    (chainBuf.getD emptyGasMap)

/-- Modelled from the spec: the
`gasLimit = gasEstimate × (1 + gasLimitBuffer[orderKind] ??
gasLimitBuffer.default)` formula of spec section 4.6; the submitter worker
source is not part of the repository snapshot. -/
def gasLimitOf (buf : GasMap) (orderKind : String) (gasEstimate : ℚ) : ℚ :=
  gasEstimate * (1 + ((buf orderKind).getD ((buf "default").getD 0)))

/-- C4: every absent optional submitter key is filled with exactly the
documented default, and the gas limit buffer gains a `default` key equal
to 0 when one is not present (other keys unchanged). -/
theorem loadGlobalSubmitterConfig_defaults (c : SubmitterConfigIn) :
    (c.newOrdersDelay = none →
      (loadGlobalSubmitterConfig c).newOrdersDelay = 0) ∧
    (c.retryInterval = none →
      (loadGlobalSubmitterConfig c).retryInterval = 2000) ∧
    (c.processingInterval = none →
      (loadGlobalSubmitterConfig c).processingInterval = 100) ∧
    (c.maxTries = none → (loadGlobalSubmitterConfig c).maxTries = 3) ∧
    (c.maxPendingTransactions = none →
      (loadGlobalSubmitterConfig c).maxPendingTransactions = 1000) ∧
    (c.confirmations = none →
      (loadGlobalSubmitterConfig c).confirmations = 1) ∧
    (c.confirmationTimeout = none →
      (loadGlobalSubmitterConfig c).confirmationTimeout = 600000) ∧
    (c.balanceUpdateInterval = none →
      (loadGlobalSubmitterConfig c).balanceUpdateInterval = 50) ∧
    ((c.gasLimitBuffer.getD emptyGasMap) "default" = none →
      (loadGlobalSubmitterConfig c).gasLimitBuffer "default" = some 0) ∧
    (∀ k, (c.gasLimitBuffer.getD emptyGasMap) "default" = none →
      k ≠ "default" →
      (loadGlobalSubmitterConfig c).gasLimitBuffer k =
        (c.gasLimitBuffer.getD emptyGasMap) k) := by
  refine ⟨?_, ?_, ?_, ?_, ?_, ?_, ?_, ?_, ?_, ?_⟩
  · intro h
    simp [loadGlobalSubmitterConfig, h, NEW_ORDERS_DELAY_DEFAULT]
  · intro h
    simp [loadGlobalSubmitterConfig, h, RETRY_INTERVAL_DEFAULT]
  · intro h
    simp [loadGlobalSubmitterConfig, h, PROCESSING_INTERVAL_DEFAULT]
  · intro h
    simp [loadGlobalSubmitterConfig, h, MAX_TRIES_DEFAULT]
  · intro h
    simp [loadGlobalSubmitterConfig, h, MAX_PENDING_TRANSACTIONS]
  · intro h
    simp [loadGlobalSubmitterConfig, h, CONFIRMATIONS_DEFAULT]
  · intro h
    simp [loadGlobalSubmitterConfig, h, CONFIRMATION_TIMEOUT_DEFAULT]
  · intro h
    simp [loadGlobalSubmitterConfig, h, BALANCE_UPDATE_INTERVAL_DEFAULT]
  · intro h
    simp [loadGlobalSubmitterConfig, h]
  · intro k h hk
    simp [loadGlobalSubmitterConfig, h, hk]

def exSubmitterConfigIn : SubmitterConfigIn :=
  { enabled := none
    newOrdersDelay := none
    retryInterval := none
    processingInterval := none
    maxTries := none
    maxPendingTransactions := none
    confirmations := none
    confirmationTimeout := none
    lowBalanceWarning := none
    balanceUpdateInterval := none
    gasLimitBuffer := none }

/-- Witness for C4 at the fully-empty submitter configuration. -/
theorem loadGlobalSubmitterConfig_defaults_witness :
    (loadGlobalSubmitterConfig exSubmitterConfigIn).retryInterval = 2000 ∧
      (loadGlobalSubmitterConfig exSubmitterConfigIn).gasLimitBuffer
        "default" = some 0 :=
  ⟨(loadGlobalSubmitterConfig_defaults exSubmitterConfigIn).2.1 rfl,
    (loadGlobalSubmitterConfig_defaults
      exSubmitterConfigIn).2.2.2.2.2.2.2.2.1 rfl⟩

theorem loadGlobalSubmitterConfig_default_isSome (c : SubmitterConfigIn) :
    ((loadGlobalSubmitterConfig c).gasLimitBuffer "default").isSome =
      true := by
  by_cases h :
    ((c.gasLimitBuffer.getD emptyGasMap) "default").isSome = true
  · simp [loadGlobalSubmitterConfig, h]
  · simp [loadGlobalSubmitterConfig, h]

/-- C5: the per-chain gas limit buffer handed to a worker merges the
global and the chain maps with the chain value winning on shared keys and
the global value retained otherwise, and it always contains a `default`
key, so the gas limit formula always has a fallback. -/
theorem gasLimitBuffer_merge (c : SubmitterConfigIn)
    (chainBuf : Option GasMap) :
    (∀ k v, (chainBuf.getD emptyGasMap) k = some v →
      loadWorkerGasLimitBuffer c chainBuf k = some v) ∧
    (∀ k, (chainBuf.getD emptyGasMap) k = none →
      loadWorkerGasLimitBuffer c chainBuf k =
        (loadGlobalSubmitterConfig c).gasLimitBuffer k) ∧
    ((loadWorkerGasLimitBuffer c chainBuf) "default").isSome = true := by
  refine ⟨?_, ?_, ?_⟩
  · intro k v h
    simp [loadWorkerGasLimitBuffer, getChainGasLimitBufferConfig, h]
  · intro k h
    simp [loadWorkerGasLimitBuffer, getChainGasLimitBufferConfig, h]
  · cases hc : (chainBuf.getD emptyGasMap) "default" with
    | some v =>
      simp [loadWorkerGasLimitBuffer, getChainGasLimitBufferConfig, hc]
    | none =>
      simp [loadWorkerGasLimitBuffer, getChainGasLimitBufferConfig, hc,
        loadGlobalSubmitterConfig_default_isSome c]

def exChainGasMap : GasMap := fun k => if k = "swap" then some 25 else none

/-- Witness for C5: a chain-level buffer entry wins in the merged map. -/
theorem gasLimitBuffer_merge_witness :
    loadWorkerGasLimitBuffer exSubmitterConfigIn (some exChainGasMap)
      "swap" = some 25 :=
  (gasLimitBuffer_merge exSubmitterConfigIn (some exChainGasMap)).1
    "swap" 25 (by simp [exChainGasMap])

/-! ## C6 and C7: the polymer collector module (polymer.ts) -/

/-- The per-chain AMB properties of the `polymer` entry of `ambsConfig`,
embedded by the lookups `getAMBConfig('polymer', key, chainId)`. -/
structure PolymerAmbConfig where
  incentivesAddressOf : String → Option String
  bridgeAddressOf : String → Option String

/-- The chain configuration fields read by the polymer module. -/
structure PolyChainConfig where
  chainId : String
  rpc : String
  startingBlock : Option ℕ
  stoppingBlock : Option ℕ
  blockDelay : Option ℕ
  getterInterval : Option ℕ
  getterMaxBlocks : Option ℕ

/-- The `DEFAULT_GETTER_BLOCK_DELAY`, `DEFAULT_GETTER_INTERVAL` and
`DEFAULT_GETTER_MAX_BLOCKS` constants imported from the getter service;
its source is not part of the snapshot, so they stay abstract arguments. -/
structure GetterDefaults where
  blockDelay : ℕ
  interval : ℕ
  maxBlocks : Option ℕ

/-- The `GlobalPolymerConfig` interface of `polymer.ts`. -/
structure GlobalPolymerConfig where
  blockDelay : ℕ
  interval : ℕ
  maxBlocks : Option ℕ

/-- The `PolymerWorkerData` interface of `polymer.ts`. -/
structure PolymerWorkerData where
  chainId : String
  rpc : String
  startingBlock : Option ℕ
  stoppingBlock : Option ℕ
  blockDelay : ℕ
  interval : ℕ
  maxBlocks : Option ℕ
  incentivesAddress : String
  polymerAddress : String

/-- The configuration seen by the polymer module: the AMB map, the global
getter configuration and the chain list. -/
structure PolymerModuleInput where
  ambs : String → Option PolymerAmbConfig
  globalBlockDelay : Option ℕ
  getterInterval : Option ℕ
  getterMaxBlocks : Option ℕ
  chains : List PolyChainConfig

/-- `configService.getAMBConfig('polymer', 'incentivesAddress', chainId)`
of `polymer.ts`. -/
def getAMBIncentivesAddress (ambs : String → Option PolymerAmbConfig)
    (chainId : String) : Option String :=
  match ambs "polymer" with
  | some amb => amb.incentivesAddressOf chainId
  | none => none

/-- `configService.getAMBConfig('polymer', 'bridgeAddress', chainId)` of
`polymer.ts`. -/
def getAMBBridgeAddress (ambs : String → Option PolymerAmbConfig)
    (chainId : String) : Option String :=
  match ambs "polymer" with
  | some amb => amb.bridgeAddressOf chainId
  | none => none

/-- The global config values assembled by `loadGlobalPolymerConfig` once
the `polymer` AMB entry has been found. -/
def mkGlobalPolymerConfig (inp : PolymerModuleInput) (d : GetterDefaults) :
    GlobalPolymerConfig :=
  { blockDelay := inp.globalBlockDelay.getD d.blockDelay
    interval := inp.getterInterval.getD d.interval
    maxBlocks :=
      match inp.getterMaxBlocks with
      | some v => some v
      | none => d.maxBlocks }

/-- `loadGlobalPolymerConfig` of `polymer.ts`: throws when the `polymer`
AMB configuration is absent. -/
def loadGlobalPolymerConfig (inp : PolymerModuleInput) (d : GetterDefaults) :
    Except String GlobalPolymerConfig :=
  match inp.ambs "polymer" with
  | none =>
      Except.error
        ("Failed to load Polymer module: polymer configuration not found.")
  | some _ => Except.ok (mkGlobalPolymerConfig inp d)

/-- `loadWorkerData` of `polymer.ts`: `null` when the `incentivesAddress`
or the `bridgeAddress` is undefined for the chain. -/
def loadWorkerData (ambs : String → Option PolymerAmbConfig)
    (g : GlobalPolymerConfig) (c : PolyChainConfig) :
    Option PolymerWorkerData :=
  match getAMBIncentivesAddress ambs c.chainId,
      getAMBBridgeAddress ambs c.chainId with
  | some i, some b =>
      some
        { chainId := c.chainId
          rpc := c.rpc
          startingBlock := c.startingBlock
          stoppingBlock := c.stoppingBlock
          blockDelay := c.blockDelay.getD g.blockDelay
          interval := c.getterInterval.getD g.interval
          maxBlocks :=
            match c.getterMaxBlocks with
            | some v => some v
            | none => g.maxBlocks
          incentivesAddress := i
          polymerAddress := b }
  | _, _ => none

/-- Assignment `m[k] = v` on a JS record that was built only by such
assignments: the entry with the key is updated in place, otherwise the new
entry is appended in insertion order. -/
def recordSet (m : List (String × Bool)) (k : String) (v : Bool) :
    List (String × Bool) :=
  match m with
  | [] => [(k, v)]
  | e :: rest => if e.1 = k then (k, v) :: rest else e :: recordSet rest k v

/-- The `workers` record of the polymer module: one entry per started
worker, `true` while the worker is alive and `false` once it exited
(`workers[chainId] = null`). -/
structure PolymerModuleState where
  entries : List (String × Bool)
  deriving DecidableEq, Repr

/-- The `workers` record after module initialization: one `true` entry per
chain whose `loadWorkerData` succeeded, in chain order. -/
def buildPolymerWorkers (inp : PolymerModuleInput) (d : GetterDefaults) :
    List (String × Bool) :=
  inp.chains.foldl
    (fun m c =>
      match loadWorkerData inp.ambs (mkGlobalPolymerConfig inp d) c with
      | some wd => recordSet m wd.chainId true
      | none => m) []

/-- The polymer module default export: fails when the `polymer` AMB
configuration is absent, otherwise starts one worker per completely
configured chain. -/
def initPolymerModule (inp : PolymerModuleInput) (d : GetterDefaults) :
    Except String PolymerModuleState :=
  match loadGlobalPolymerConfig inp d with
  | Except.error e => Except.error e
  | Except.ok _ => Except.ok { entries := buildPolymerWorkers inp d }

/-- The `worker.on('exit')` handler: `workers[chainId] = null`. -/
def applyExit (st : PolymerModuleState) (cid : String) : PolymerModuleState :=
  { entries := recordSet st.entries cid false }

/-- A sequence of worker exits. -/
def applyExits (st : PolymerModuleState) (l : List String) :
    PolymerModuleState :=
  l.foldl applyExit st

/-- The `logStatus` report of `polymer.ts`: the keys of the `workers`
record partitioned into active (non-null) and inactive (null) workers. -/
def logStatus (st : PolymerModuleState) : List String × List String :=
  ((st.entries.filter (fun e => e.2)).map (fun e => e.1),
    (st.entries.filter (fun e => !e.2)).map (fun e => e.1))

/-- Lookup of a key in the workers record. -/
def lookupEntry (m : List (String × Bool)) (k : String) : Option Bool :=
  match m with
  | [] => none
  | e :: rest => if e.1 = k then some e.2 else lookupEntry rest k

/-- Number of entries of the workers record carrying a key. -/
def countKey (m : List (String × Bool)) (k : String) : ℕ :=
  (m.filter (fun e => e.1 == k)).length

/-- The keys of the workers record are pairwise distinct. -/
def keysNodup (m : List (String × Bool)) : Prop :=
  (m.map (fun e => e.1)).Nodup

/-- Whether some chain of the list is completely configured with the given
chain id (used to characterize the initial workers record). -/
def anyCompleteChain (ambs : String → Option PolymerAmbConfig)
    (g : GlobalPolymerConfig) : List PolyChainConfig → String → Bool
  | [], _ => false
  | c :: t, k =>
      (c.chainId == k && (loadWorkerData ambs g c).isSome) ||
        anyCompleteChain ambs g t k

theorem lookupEntry_recordSet_self (m : List (String × Bool)) (k : String)
    (v : Bool) : lookupEntry (recordSet m k v) k = some v := by
  induction m with
  | nil => simp [recordSet, lookupEntry]
  | cons e rest ih =>
    by_cases h : e.1 = k
    · simp [recordSet, lookupEntry, h]
    · simp [recordSet, lookupEntry, h, ih]

theorem lookupEntry_recordSet_other (m : List (String × Bool)) (k : String)
    (v : Bool) (k2 : String) (h : k2 ≠ k) :
    lookupEntry (recordSet m k v) k2 = lookupEntry m k2 := by
  induction m with
  | nil => simp [recordSet, lookupEntry, Ne.symm h]
  | cons e rest ih =>
    by_cases he : e.1 = k
    · simp [recordSet, lookupEntry, he, Ne.symm h]
    · by_cases he2 : e.1 = k2
      · simp [recordSet, lookupEntry, he, he2, h]
      · simp [recordSet, lookupEntry, he, he2, ih]

theorem mem_keys_recordSet (m : List (String × Bool)) (k : String) (v : Bool)
    (a : String) :
    a ∈ (recordSet m k v).map (fun e => e.1) ↔
      a ∈ m.map (fun e => e.1) ∨ a = k := by
  induction m with
  | nil => simp [recordSet]
  | cons e rest ih =>
    by_cases he : e.1 = k
    · simp only [recordSet, if_pos he, List.map_cons, List.mem_cons, ih]
      constructor
      · rintro (h | h)
        · exact Or.inr h
        · exact Or.inl (Or.inr h)
      · rintro (h | h)
        · rcases h with h | h
          · exact Or.inl (he ▸ h)
          · exact Or.inr h
        · exact Or.inl h
    · simp only [recordSet, if_neg he, List.map_cons, List.mem_cons, ih]
      tauto

theorem keysNodup_recordSet (m : List (String × Bool)) (k : String) (v : Bool)
    (h : keysNodup m) : keysNodup (recordSet m k v) := by
  induction m with
  | nil => simp [recordSet, keysNodup]
  | cons e rest ih =>
    unfold keysNodup at h
    rw [List.map_cons, List.nodup_cons] at h
    obtain ⟨hnot, hrest⟩ := h
    by_cases he : e.1 = k
    · unfold keysNodup
      simp only [recordSet, if_pos he, List.map_cons, List.nodup_cons]
      exact ⟨he ▸ hnot, hrest⟩
    · unfold keysNodup
      simp only [recordSet, if_neg he, List.map_cons, List.nodup_cons]
      constructor
      · intro hmem
        rcases (mem_keys_recordSet rest k v e.1).mp hmem with hm | hm
        · exact hnot hm
        · exact he hm
      · exact ih hrest

theorem lookupEntry_none_of_not_mem_keys (m : List (String × Bool))
    (k : String) (h : k ∉ m.map (fun e => e.1)) : lookupEntry m k = none := by
  induction m with
  | nil => rfl
  | cons e rest ih =>
    rw [List.map_cons, List.mem_cons] at h
    push_neg at h
    have hne : e.1 ≠ k := fun hx => h.1 hx.symm
    simp [lookupEntry, hne, ih h.2]

theorem lookupEntry_eq_some_iff (m : List (String × Bool)) (k : String)
    (b : Bool) (h : keysNodup m) :
    lookupEntry m k = some b ↔ (k, b) ∈ m := by
  induction m with
  | nil => simp [lookupEntry]
  | cons e rest ih =>
    unfold keysNodup at h
    rw [List.map_cons, List.nodup_cons] at h
    obtain ⟨hnot, hrest⟩ := h
    by_cases he : e.1 = k
    · simp only [lookupEntry, if_pos he, List.mem_cons]
      constructor
      · intro hb
        left
        cases hb
        cases e
        cases he
        rfl
      · rintro (hb | hb)
        · cases hb
          rfl
        · exfalso
          apply hnot
          rw [he]
          exact List.mem_map.mpr ⟨(k, b), hb, rfl⟩
    · simp only [lookupEntry, if_neg he, List.mem_cons, ih hrest]
      constructor
      · exact fun hb => Or.inr hb
      · rintro (hb | hb)
        · exfalso
          apply he
          cases hb
          rfl
        · exact hb

theorem countKey_eq_zero (m : List (String × Bool)) (k : String)
    (hn : lookupEntry m k = none) : countKey m k = 0 := by
  induction m with
  | nil => rfl
  | cons e rest ih =>
    by_cases he : e.1 = k
    · simp [lookupEntry, he] at hn
    · rw [lookupEntry, if_neg he] at hn
      have : (e.1 == k) = false := by
        simp [he]
      simp [countKey, List.filter_cons, this]
      have := ih hn
      simpa [countKey] using this

theorem countKey_eq_one (m : List (String × Bool)) (k : String)
    (h : keysNodup m) (hs : (lookupEntry m k).isSome = true) :
    countKey m k = 1 := by
  induction m with
  | nil => simp [lookupEntry] at hs
  | cons e rest ih =>
    unfold keysNodup at h
    rw [List.map_cons, List.nodup_cons] at h
    obtain ⟨hnot, hrest⟩ := h
    by_cases he : e.1 = k
    · have hz : countKey rest k = 1 + countKey rest k - 1 := by omega
      have hlz : lookupEntry rest k = none := by
        apply lookupEntry_none_of_not_mem_keys
        rw [← he]
        exact hnot
      have := countKey_eq_zero rest k hlz
      have hbeq : (e.1 == k) = true := by
        simp [he]
      simp [countKey, List.filter_cons, hbeq]
      simpa [countKey] using this
    · have hbeq : (e.1 == k) = false := by
        simp [he]
      rw [lookupEntry, if_neg he] at hs
      have := ih hrest hs
      simp [countKey, List.filter_cons, hbeq]
      simpa [countKey] using this

theorem lookupEntry_buildWorkers (ambs : String → Option PolymerAmbConfig)
    (g : GlobalPolymerConfig) (chains : List PolyChainConfig) :
    ∀ (m : List (String × Bool)) (k : String),
      lookupEntry
        (chains.foldl
          (fun m c =>
            match loadWorkerData ambs g c with
            | some wd => recordSet m wd.chainId true
            | none => m) m) k =
        if anyCompleteChain ambs g chains k = true then some true
        else lookupEntry m k := by
  induction chains with
  | nil =>
    intro m k
    simp [anyCompleteChain]
  | cons c t ih =>
    intro m k
    rw [List.foldl_cons]
    cases hw : loadWorkerData ambs g c with
    | none =>
      rw [ih]
      have hcond : anyCompleteChain ambs g (c :: t) k =
          anyCompleteChain ambs g t k := by
        simp [anyCompleteChain, hw]
      rw [hcond]
    | some wd =>
      have hid : wd.chainId = c.chainId := by
        unfold loadWorkerData at hw
        cases ha : getAMBIncentivesAddress ambs c.chainId with
        | none => rw [ha] at hw; cases hw
        | some i =>
          cases hb : getAMBBridgeAddress ambs c.chainId with
          | none => rw [ha, hb] at hw; cases hw
          | some b =>
            rw [ha, hb] at hw
            cases hw
            rfl
      rw [ih]
      by_cases hk : c.chainId = k
      · have hcond : anyCompleteChain ambs g (c :: t) k = true := by
          simp [anyCompleteChain, hw, hk]
        rw [hcond, if_pos rfl]
        by_cases ht : anyCompleteChain ambs g t k = true
        · rw [if_pos ht]
        · rw [if_neg ht]
          show lookupEntry (recordSet m wd.chainId true) k = some true
          rw [hid, hk]
          exact lookupEntry_recordSet_self m k true
      · have hcond : anyCompleteChain ambs g (c :: t) k =
            anyCompleteChain ambs g t k := by
          simp [anyCompleteChain, hw, hk]
        rw [hcond]
        by_cases ht : anyCompleteChain ambs g t k = true
        · rw [if_pos ht, if_pos ht]
        · rw [if_neg ht, if_neg ht]
          show lookupEntry (recordSet m wd.chainId true) k = lookupEntry m k
          rw [hid]
          exact lookupEntry_recordSet_other m c.chainId true k
            fun hx => hk hx.symm

theorem keysNodup_buildWorkers (ambs : String → Option PolymerAmbConfig)
    (g : GlobalPolymerConfig) (chains : List PolyChainConfig) :
    ∀ (m : List (String × Bool)), keysNodup m →
      keysNodup
        (chains.foldl
          (fun m c =>
            match loadWorkerData ambs g c with
            | some wd => recordSet m wd.chainId true
            | none => m) m) := by
  induction chains with
  | nil =>
    intro m hm
    exact hm
  | cons c t ih =>
    intro m hm
    rw [List.foldl_cons]
    cases hw : loadWorkerData ambs g c with
    | none => exact ih m hm
    | some wd => exact ih _ (keysNodup_recordSet m wd.chainId true hm)

theorem lookupEntry_applyExits (st : PolymerModuleState) (l : List String)
    (k : String) :
    lookupEntry (applyExits st l).entries k =
      if k ∈ l then some false else lookupEntry st.entries k := by
  induction l generalizing st with
  | nil => simp [applyExits]
  | cons x t ih =>
    show lookupEntry (applyExits (applyExit st x) t).entries k = _
    rw [ih]
    by_cases hk : k ∈ x :: t
    · rw [if_pos hk]
      by_cases ht : k ∈ t
      · rw [if_pos ht]
      · rw [if_neg ht]
        have hx : k = x := by
          rcases List.mem_cons.mp hk with h | h
          · exact h
          · exact absurd h ht
        cases hx
        exact lookupEntry_recordSet_self st.entries k false
    · rw [if_neg hk]
      have hx : k ≠ x := fun h => hk (h ▸ List.mem_cons_self x t)
      have ht : k ∉ t := fun h => hk (List.mem_cons_of_mem x h)
      rw [if_neg ht]
      exact lookupEntry_recordSet_other st.entries x false k hx

theorem keysNodup_applyExits (st : PolymerModuleState) (l : List String)
    (h : keysNodup st.entries) : keysNodup (applyExits st l).entries := by
  induction l generalizing st with
  | nil => exact h
  | cons x t ih =>
    exact ih (applyExit st x) (keysNodup_recordSet st.entries x false h)

theorem mem_active_iff (st : PolymerModuleState) (k : String) :
    k ∈ (logStatus st).1 ↔ (k, true) ∈ st.entries := by
  simp only [logStatus, List.mem_map]
  constructor
  · rintro ⟨e, he, rfl⟩
    obtain ⟨hmem, hb⟩ := List.mem_filter.mp he
    cases e with
    | mk a b =>
      simp only at hb
      cases hb
      exact hmem
  · intro hmem
    exact ⟨(k, true), List.mem_filter.mpr ⟨hmem, rfl⟩, rfl⟩

theorem mem_inactive_iff (st : PolymerModuleState) (k : String) :
    k ∈ (logStatus st).2 ↔ (k, false) ∈ st.entries := by
  simp only [logStatus, List.mem_map]
  constructor
  · rintro ⟨e, he, rfl⟩
    obtain ⟨hmem, hb⟩ := List.mem_filter.mp he
    cases e with
    | mk a b =>
      simp only [Bool.not_eq_true'] at hb
      cases hb
      exact hmem
  · intro hmem
    exact ⟨(k, false), List.mem_filter.mpr ⟨hmem, rfl⟩, rfl⟩

theorem anyCompleteChain_of_mem (ambs : String → Option PolymerAmbConfig)
    (g : GlobalPolymerConfig) (chains : List PolyChainConfig)
    (c : PolyChainConfig) (hc : c ∈ chains)
    (hw : (loadWorkerData ambs g c).isSome = true) :
    anyCompleteChain ambs g chains c.chainId = true := by
  induction chains with
  | nil => cases hc
  | cons x t ih =>
    rcases List.mem_cons.mp hc with h | h
    · cases h
      simp [anyCompleteChain, hw]
    · simp [anyCompleteChain, ih h]

theorem initPolymerModule_ok_entries (inp : PolymerModuleInput)
    (d : GetterDefaults) (st0 : PolymerModuleState)
    (h : initPolymerModule inp d = Except.ok st0) :
    st0.entries = buildPolymerWorkers inp d := by
  unfold initPolymerModule loadGlobalPolymerConfig at h
  cases ha : inp.ambs "polymer" with
  | none =>
    rw [ha] at h
    cases h
  | some amb =>
    rw [ha] at h
    cases h
    rfl

theorem keysNodup_buildPolymerWorkers (inp : PolymerModuleInput)
    (d : GetterDefaults) : keysNodup (buildPolymerWorkers inp d) := by
  unfold buildPolymerWorkers
  exact keysNodup_buildWorkers _ _ _ [] (by simp [keysNodup])

/-- C6 (amended): in every periodic status report of the polymer
collector, each chain for which a worker was created appears in exactly
one of `activeWorkers` and `inactiveWorkers`, the two lists are disjoint,
and a chain moves to `inactiveWorkers` when its worker exits. -/
theorem polymer_status_partition (inp : PolymerModuleInput)
    (d : GetterDefaults) (st0 : PolymerModuleState) (exits : List String)
    (c : PolyChainConfig)
    (hinit : initPolymerModule inp d = Except.ok st0)
    (hc : c ∈ inp.chains)
    (hw : (loadWorkerData inp.ambs (mkGlobalPolymerConfig inp d) c).isSome =
      true) :
    ((c.chainId ∈ (logStatus (applyExits st0 exits)).1 ∧
        c.chainId ∉ (logStatus (applyExits st0 exits)).2) ∨
      (c.chainId ∉ (logStatus (applyExits st0 exits)).1 ∧
        c.chainId ∈ (logStatus (applyExits st0 exits)).2)) ∧
      (∀ k, ¬(k ∈ (logStatus (applyExits st0 exits)).1 ∧
        k ∈ (logStatus (applyExits st0 exits)).2)) ∧
      c.chainId ∈ (logStatus (applyExit (applyExits st0 exits) c.chainId)).2
    := by
  have hst0 := initPolymerModule_ok_entries inp d st0 hinit
  have hnd0 : keysNodup st0.entries := by
    rw [hst0]
    exact keysNodup_buildPolymerWorkers inp d
  have hlook0 : lookupEntry st0.entries c.chainId = some true := by
    rw [hst0]
    unfold buildPolymerWorkers
    rw [lookupEntry_buildWorkers,
      if_pos (anyCompleteChain_of_mem _ _ _ c hc hw)]
  have hnd : keysNodup (applyExits st0 exits).entries :=
    keysNodup_applyExits st0 exits hnd0
  have hlook : lookupEntry (applyExits st0 exits).entries c.chainId =
      some true ∨
      lookupEntry (applyExits st0 exits).entries c.chainId = some false := by
    rw [lookupEntry_applyExits]
    by_cases hm : c.chainId ∈ exits
    · right
      rw [if_pos hm]
    · left
      rw [if_neg hm, hlook0]
  refine ⟨?_, ?_, ?_⟩
  · rcases hlook with h | h
    · left
      constructor
      · exact (mem_active_iff _ _).mpr
          ((lookupEntry_eq_some_iff _ _ _ hnd).mp h)
      · intro hmem
        have h2 := (lookupEntry_eq_some_iff _ _ _ hnd).mpr
          ((mem_inactive_iff _ _).mp hmem)
        rw [h] at h2
        simp at h2
    · right
      constructor
      · intro hmem
        have h2 := (lookupEntry_eq_some_iff _ _ _ hnd).mpr
          ((mem_active_iff _ _).mp hmem)
        rw [h] at h2
        simp at h2
      · exact (mem_inactive_iff _ _).mpr
          ((lookupEntry_eq_some_iff _ _ _ hnd).mp h)
  · intro k hk
    obtain ⟨hka, hki⟩ := hk
    have h1 := (lookupEntry_eq_some_iff _ _ _ hnd).mpr
      ((mem_active_iff _ _).mp hka)
    have h2 := (lookupEntry_eq_some_iff _ _ _ hnd).mpr
      ((mem_inactive_iff _ _).mp hki)
    rw [h1] at h2
    simp at h2
  · apply (mem_inactive_iff _ _).mpr
    apply (lookupEntry_eq_some_iff _ _ _
      (keysNodup_recordSet _ _ _ hnd)).mp
    exact lookupEntry_recordSet_self _ _ _

def exPolyChain : PolyChainConfig :=
  { chainId := "1"
    rpc := "http-one"
    startingBlock := none
    stoppingBlock := none
    blockDelay := none
    getterInterval := none
    getterMaxBlocks := none }

def exGetterDefaults : GetterDefaults :=
  { blockDelay := 1
    interval := 5000
    maxBlocks := none }

def cexPolyAmb : PolymerAmbConfig :=
  { incentivesAddressOf := fun _ => none
    bridgeAddressOf := fun _ => some "0xbridge" }

def cexPolyInput : PolymerModuleInput :=
  { ambs := fun k => if k = "polymer" then some cexPolyAmb else none
    globalBlockDelay := none
    getterInterval := none
    getterMaxBlocks := none
    chains := [exPolyChain] }

/-- Counterexample to C6 as literally stated: a configured chain whose
polymer configuration lacks the incentives address never enters the
`workers` record, so it appears in neither `activeWorkers` nor
`inactiveWorkers` - the two lists do not cover every configured chain. -/
theorem polymer_status_partition_cex :
    initPolymerModule cexPolyInput exGetterDefaults =
        Except.ok { entries := [] } ∧
      "1" ∉ (logStatus { entries := [] }).1 ∧
      "1" ∉ (logStatus { entries := [] }).2 := by
  refine ⟨rfl, ?_, ?_⟩ <;> simp [logStatus]

def exPolyAmb : PolymerAmbConfig :=
  { incentivesAddressOf := fun _ => some "0xinc"
    bridgeAddressOf := fun _ => some "0xbr" }

def exPolyInput : PolymerModuleInput :=
  { ambs := fun k => if k = "polymer" then some exPolyAmb else none
    globalBlockDelay := none
    getterInterval := none
    getterMaxBlocks := none
    chains := [exPolyChain] }

/-- Witness for C6: with one completely configured chain and no prior
exits, the chain moves to the inactive list when its worker exits. -/
theorem polymer_status_partition_witness :
    "1" ∈ (logStatus (applyExit
      (applyExits { entries := [("1", true)] } []) "1")).2 :=
  (polymer_status_partition exPolyInput exGetterDefaults
    { entries := [("1", true)] } [] exPolyChain rfl
    (List.mem_cons_self _ _) rfl).2.2

/-- C7: when the `polymer` AMB configuration is entirely absent, module
initialization fails with an error before any worker is created; a chain
missing the incentives address or the bridge address gets no worker
(`loadWorkerData` returns `null`); and every completely configured chain
gets exactly one worker. -/
theorem polymer_worker_config (inp : PolymerModuleInput)
    (d : GetterDefaults) :
    (inp.ambs "polymer" = none →
      initPolymerModule inp d =
        Except.error
          ("Failed to load Polymer module: polymer configuration not found.")) ∧
    (∀ c : PolyChainConfig,
      getAMBIncentivesAddress inp.ambs c.chainId = none ∨
        getAMBBridgeAddress inp.ambs c.chainId = none →
      loadWorkerData inp.ambs (mkGlobalPolymerConfig inp d) c = none) ∧
    (∀ st0, initPolymerModule inp d = Except.ok st0 →
      (∀ c ∈ inp.chains,
        (loadWorkerData inp.ambs (mkGlobalPolymerConfig inp d) c).isSome =
          true →
        countKey st0.entries c.chainId = 1) ∧
      (∀ cid : String,
        anyCompleteChain inp.ambs (mkGlobalPolymerConfig inp d) inp.chains
          cid = false →
        countKey st0.entries cid = 0)) := by
  refine ⟨?_, ?_, ?_⟩
  · intro h
    unfold initPolymerModule loadGlobalPolymerConfig
    rw [h]
  · intro c h
    rcases h with h | h
    · cases hb : getAMBBridgeAddress inp.ambs c.chainId <;>
        simp [loadWorkerData, h, hb]
    · cases ha : getAMBIncentivesAddress inp.ambs c.chainId <;>
        simp [loadWorkerData, h, ha]
  · intro st0 hinit
    have hst0 := initPolymerModule_ok_entries inp d st0 hinit
    constructor
    · intro c hc hw
      have hl : lookupEntry (buildPolymerWorkers inp d) c.chainId =
          some true := by
        unfold buildPolymerWorkers
        rw [lookupEntry_buildWorkers,
          if_pos (anyCompleteChain_of_mem _ _ _ c hc hw)]
      rw [hst0]
      apply countKey_eq_one _ _ (keysNodup_buildPolymerWorkers inp d)
      rw [hl]
      rfl
    · intro cid hfalse
      have hl : lookupEntry (buildPolymerWorkers inp d) cid = none := by
        unfold buildPolymerWorkers
        rw [lookupEntry_buildWorkers, hfalse]
        simp [lookupEntry]
      rw [hst0]
      exact countKey_eq_zero _ _ hl

def cexNoAmbInput : PolymerModuleInput :=
  { ambs := fun _ => none
    globalBlockDelay := none
    getterInterval := none
    getterMaxBlocks := none
    chains := [exPolyChain] }

/-- Witness for C7: with no `polymer` AMB entry the module fails with the
configuration error. -/
theorem polymer_worker_config_witness :
    initPolymerModule cexNoAmbInput exGetterDefaults =
      Except.error
        ("Failed to load Polymer module: polymer configuration not found.") :=
  (polymer_worker_config cexNoAmbInput exGetterDefaults).1 rfl

/-! ## C8: getSwapIdentifier (common/utils.ts) -/

/-- The ABI tuple `['bytes', 'uint256', 'uint256', 'address', 'uint32']`
encoded by `getSwapIdentifier`; the last component is the block number
already reduced modulo `2 ** 32`. -/
structure AbiSwapTuple where
  toAccount : String
  units : ℤ
  fromAmountMinusFee : ℤ
  fromAsset : String
  blockNumberU32 : ℕ
  deriving DecidableEq

/-- `getSwapIdentifier` of `common/utils.ts`: hashes the ABI encoding of
its arguments with the block number reduced by `% 2 ** 32`; `keccak256`
composed with the ABI encoder is abstracted as an arbitrary function of
the encoded tuple. -/
def getSwapIdentifier (keccak256 : AbiSwapTuple → String)
    (toAccount : String) (units fromAmountMinusFee : ℤ) (fromAsset : String)
    (blockNumber : ℕ) : String :=
  keccak256
    { toAccount := toAccount
      units := units
      fromAmountMinusFee := fromAmountMinusFee
      fromAsset := fromAsset
      blockNumberU32 := blockNumber % 2 ^ 32 }

/-- C8: `getSwapIdentifier` depends on its block number argument only
through its value modulo `2 ^ 32`. -/
theorem getSwapIdentifier_mod (keccak256 : AbiSwapTuple → String)
    (toAccount : String) (units fromAmountMinusFee : ℤ) (fromAsset : String)
    (b : ℕ) :
    getSwapIdentifier keccak256 toAccount units fromAmountMinusFee fromAsset
        b =
      getSwapIdentifier keccak256 toAccount units fromAmountMinusFee
        fromAsset (b + 2 ^ 32) := by
  unfold getSwapIdentifier
  rw [Nat.add_mod_right]

/-! ## C9: tryErrorToString (common/utils.ts) -/

/-- A JavaScript value as observed by `tryErrorToString`: `null` and
`undefined` are identified (the source compares with loose equality),
strings are kept, and any other value is summarized by its `toString()`
outcome - `none` standing for a `toString` that throws. -/
inductive JsValue where
  | nullish
  | str (s : String)
  | other (toStr : Option String)
  deriving DecidableEq

/-- `tryErrorToString` of `common/utils.ts`. -/
def tryErrorToString : JsValue → Option String
  | .nullish => none
  | .str s => some s
  | .other (some s) => some s
  | .other none => some ("Unable to stringify error.")

/-- C9: `tryErrorToString` is total: it returns `undefined` exactly for
`null`/`undefined` inputs, returns string inputs unchanged, returns the
`toString()` result otherwise, and falls back to the fixed string when
`toString` itself throws. -/
theorem tryErrorToString_total (v : JsValue) :
    (tryErrorToString v = none ↔ v = JsValue.nullish) ∧
      (∀ s, v = JsValue.str s → tryErrorToString v = some s) ∧
      (∀ s, v = JsValue.other (some s) → tryErrorToString v = some s) ∧
      (v = JsValue.other none →
        tryErrorToString v = some ("Unable to stringify error.")) := by
  cases v with
  | nullish =>
    refine ⟨by simp [tryErrorToString], ?_, ?_, ?_⟩
    · intro s h
      cases h
    · intro s h
      cases h
    · intro h
      cases h
  | str s0 =>
    refine ⟨by simp [tryErrorToString], ?_, ?_, ?_⟩
    · intro s h
      cases h
      rfl
    · intro s h
      cases h
    · intro h
      cases h
  | other o =>
    cases o with
    | none =>
      refine ⟨by simp [tryErrorToString], ?_, ?_, ?_⟩
      · intro s h
        cases h
      · intro s h
        cases h
      · intro h
        rfl
    | some s0 =>
      refine ⟨by simp [tryErrorToString], ?_, ?_, ?_⟩
      · intro s h
        cases h
      · intro s h
        cases h
        rfl
      · intro h
        cases h

/-- Witness for C9 at a concrete string input. -/
theorem tryErrorToString_total_witness :
    tryErrorToString (JsValue.str "boom") = some ("boom") :=
  (tryErrorToString_total (JsValue.str "boom")).2.1 "boom" rfl

/-! ## C10: queryLogs (tests/utils/query-logs.ts) -/

/-- A log as seen by `queryLogs`: the message identifier its parsed form
would expose (`none` when parsing fails) and the remaining payload. -/
structure EvmLog where
  messageIdentifier : Option String
  data : String
  deriving DecidableEq, Repr

/-- The polling loop of `queryLogsByBlock`: `polls n` is the list returned
by the n-th `provider.getLogs` call; the loop returns the first log of the
first non-empty answer and otherwise waits and retries, here bounded by an
explicit fuel. The second component counts the provider calls made. -/
def queryLogsByBlockFuel (polls : ℕ → List EvmLog) :
    ℕ → ℕ → Option EvmLog × ℕ
  | 0, _ => (none, 0)
  | fuel + 1, n =>
    match polls n with
    | [] =>
        let r := queryLogsByBlockFuel polls fuel (n + 1)
        (r.1, r.2 + 1)
    | x :: _ => (some x, 1)

/-- The polling loop of `queryLogsByMessageIdentifier`: returns the first
log of a poll whose parsed message identifier matches, retrying otherwise,
bounded by an explicit fuel. -/
def queryLogsByMidFuel (polls : ℕ → List EvmLog) (mid : String) :
    ℕ → ℕ → Option EvmLog × ℕ
  | 0, _ => (none, 0)
  | fuel + 1, n =>
    match (polls n).find? (fun l => l.messageIdentifier == some mid) with
    | some x => (some x, 1)
    | none =>
        let r := queryLogsByMidFuel polls mid fuel (n + 1)
        (r.1, r.2 + 1)

/-- `queryLogs` of `tests/utils/query-logs.ts`: throws when the configured
retry interval is undefined, dispatches on `blockHash` first, then on
`messageIdentifier`, and returns `undefined` immediately (zero provider
calls) when neither is given. -/
def queryLogs (retryInterval : Option ℕ) (polls : ℕ → List EvmLog)
    (blockHash : Option String) (messageIdentifier : Option String)
    (fuel : ℕ) : Except String (Option EvmLog × ℕ) :=
  match retryInterval with
  | none => Except.error ("Retry interval is not defined")
  | some _ =>
    match blockHash with
    | some _ => Except.ok (queryLogsByBlockFuel polls fuel 0)
    | none =>
      match messageIdentifier with
      | some mid => Except.ok (queryLogsByMidFuel polls mid fuel 0)
      | none => Except.ok (none, 0)

theorem queryLogsByBlockFuel_isSome (polls : ℕ → List EvmLog) :
    ∀ (fuel n : ℕ), (queryLogsByBlockFuel polls fuel n).1.isSome = true →
      ∃ m, polls m ≠ [] := by
  intro fuel
  induction fuel with
  | zero =>
    intro n h
    simp [queryLogsByBlockFuel] at h
  | succ f ih =>
    intro n h
    cases hp : polls n with
    | nil =>
      simp [queryLogsByBlockFuel, hp] at h
      exact ih (n + 1) h
    | cons x t =>
      refine ⟨n, ?_⟩
      rw [hp]
      simp

theorem queryLogsByBlockFuel_finds (polls : ℕ → List EvmLog) (N : ℕ)
    (hN : polls N ≠ []) (hbefore : ∀ m, m < N → polls m = []) :
    ∀ (fuel n : ℕ), n ≤ N → N < n + fuel →
      (queryLogsByBlockFuel polls fuel n).1 = (polls N).head? := by
  intro fuel
  induction fuel with
  | zero =>
    intro n hn hlt
    exact absurd hlt (by omega)
  | succ f ih =>
    intro n hn hlt
    by_cases hn2 : n = N
    · subst hn2
      cases hp : polls n with
      | nil => exact absurd hp hN
      | cons x t => simp [queryLogsByBlockFuel, hp]
    · have hlt2 : n < N := lt_of_le_of_ne hn hn2
      have hp := hbefore n hlt2
      simp only [queryLogsByBlockFuel, hp]
      exact ih (n + 1) (by omega) (by omega)

/-- C10: `queryLogs` with neither a block hash nor a message identifier
returns `undefined` immediately with zero provider polls; with a block
hash it runs the by-block polling loop, which yields a log for some fuel
iff some poll is eventually non-empty, and when the first non-empty poll
is the N-th one every sufficiently large fuel returns exactly its first
log. -/
theorem queryLogs_spec (r : ℕ) (polls : ℕ → List EvmLog) :
    (∀ fuel, queryLogs (some r) polls none none fuel =
        Except.ok ((none : Option EvmLog), 0)) ∧
      (∀ (bh : String) (mid : Option String) (fuel : ℕ),
        queryLogs (some r) polls (some bh) mid fuel =
          Except.ok (queryLogsByBlockFuel polls fuel 0)) ∧
      ((∃ fuel, (queryLogsByBlockFuel polls fuel 0).1.isSome = true) ↔
        ∃ n, polls n ≠ []) ∧
      (∀ N, (∀ m, m < N → polls m = []) → polls N ≠ [] →
        ∀ fuel, N < fuel →
          (queryLogsByBlockFuel polls fuel 0).1 = (polls N).head?) := by
  refine ⟨fun fuel => rfl, fun bh mid fuel => rfl, ?_, ?_⟩
  · constructor
    · rintro ⟨fuel, h⟩
      exact queryLogsByBlockFuel_isSome polls fuel 0 h
    · rintro ⟨n, hn⟩
      have hex : ∃ m, polls m ≠ [] := ⟨n, hn⟩
      refine ⟨Nat.find hex + 1, ?_⟩
      have h1 : polls (Nat.find hex) ≠ [] := Nat.find_spec hex
      have h2 : ∀ m, m < Nat.find hex → polls m = [] :=
        fun m hm => not_not.mp (Nat.find_min hex hm)
      rw [queryLogsByBlockFuel_finds polls (Nat.find hex) h1 h2
        (Nat.find hex + 1) 0 (Nat.zero_le _) (by omega)]
      cases hp : polls (Nat.find hex) with
      | nil => exact absurd hp h1
      | cons x t => rfl
  · intro N hbefore hN fuel hfuel
    exact queryLogsByBlockFuel_finds polls N hN hbefore fuel 0
      (Nat.zero_le _) (by omega)

def exLogA : EvmLog := { messageIdentifier := none, data := "log-a" }

def exPolls : ℕ → List EvmLog := fun n => if n = 2 then [exLogA] else []

/-- Witness for C10: with the first non-empty poll at index 2, fuel 5
returns exactly that first log. -/
theorem queryLogs_spec_witness :
    (queryLogsByBlockFuel exPolls 5 0).1 = some exLogA := by
  have h := (queryLogs_spec 2000 exPolls).2.2.2 2
    (by decide) (by decide) 5 (by omega)
  rw [h]
  rfl
